import Mathlib

/-!
Verification of the `FilterIter` compact-block-filter sync engine from
`crates/bitcoind_rpc/src/bip158.rs`.

The engine walks a remote node's chain using BIP158 compact filters.  We embed
the engine shallowly: block hashes, filter payloads, blocks and script pubkeys
become natural numbers; the RPC client becomes a record of total functions
returning `Except`; the `Iterator::next` body becomes a pure step function from
engine state to an explicit outcome (event, end-of-stream, typed error, panic,
or divergence of the unbounded rewind loop, which we bound with fuel).
-/

namespace Bip158

/-- Hash values are abstract; we model a 256-bit block hash as a natural. -/
abbrev Hash := Nat

/-- Script pubkeys are abstract byte strings; modelled as naturals. -/
abbrev Spk := Nat

/-- Full block payloads are opaque to the engine; modelled as naturals. -/
abbrev Block := Nat

/-- Compact filter payloads (`get_block_filter(...).filter`) are opaque bytes. -/
abbrev FilterBytes := Nat

/-- RPC transport errors carry no structure the engine inspects. -/
abbrev RpcErr := Unit

/-- BIP158 decode errors carry no structure the engine inspects. -/
abbrev Bip158Err := Unit

/-- BlockId from `bdk_core`: a (height, hash) pair; height is u32 in the source. -/
structure BlockId where
  height : Nat
  hash : Hash
deriving DecidableEq

/-- Modelled from the spec: the `bdk_core::CheckPoint` chain (not part of the
given sources).  An immutable, singly-linked, height-descending, nonempty
sequence of `BlockId` nodes from a tip down toward genesis.  `tip` is the
highest node and `tail` the rest, tip-first. -/
structure CheckPoint where
  tip : BlockId
  tail : List BlockId
deriving DecidableEq

/-- Iteration from the tip toward genesis (`CheckPoint::iter`). -/
def CheckPoint.toList (cp : CheckPoint) : List BlockId :=
  cp.tip :: cp.tail

/-- Height of the checkpoint tip (`CheckPoint::height`). -/
def CheckPoint.height (cp : CheckPoint) : Nat :=
  cp.tip.height

/-- Hash of the checkpoint tip (`CheckPoint::hash`). -/
def CheckPoint.hash (cp : CheckPoint) : Hash :=
  cp.tip.hash

/-- Modelled from the spec: `cp.range(..=h).next()`, the greatest checkpoint
node of height at most `h`, as a chain, or `none` when no node qualifies
(truncation to a maximum height). -/
def CheckPoint.range_le (cp : CheckPoint) (h : Nat) : Option CheckPoint :=
  match cp.toList.dropWhile (fun b => decide (h < b.height)) with
  | [] => none
  | b :: rest => some ⟨b, rest⟩

/-- Modelled from the spec: `cp.insert(block_id)`, extension of the chain with
a new tip node; any node at the inserted height or above is displaced. -/
def CheckPoint.insert (cp : CheckPoint) (b : BlockId) : CheckPoint :=
  ⟨b, cp.toList.dropWhile (fun c => decide (b.height ≤ c.height))⟩

/-- Header metadata returned by `get_block_header_info`
(`GetBlockHeaderResult`): the fields the engine reads.  `height` is `usize` in
the source (hence `Nat` with an explicit u32 range check where converted);
`confirmations` is `i32` and is negative exactly when the hash is no longer on
the node's best chain. -/
structure Header where
  height : Nat
  hash : Hash
  confirmations : Int
  previous_block_hash : Option Hash
  next_block_hash : Option Hash
deriving DecidableEq

/-- The node query interface: the subset of `bitcoincore_rpc::RpcApi` plus the
BIP158 membership test that the engine invokes.  Each RPC call may fail with a
transport error; `match_any` may fail with a BIP158 decode error.  `match_any`
abstracts `BlockFilter::new(bytes).match_any(hash, spks)`, a pure function of
the filter bytes, the block hash and the query set (the BIP158 Golomb-coded
set algorithm lives in an external crate). -/
structure Node where
  get_block_hash : Nat → Except RpcErr Hash
  get_block_header_info : Hash → Except RpcErr Header
  get_block_filter : Hash → Except RpcErr FilterBytes
  get_block : Hash → Except RpcErr Block
  match_any : FilterBytes → Hash → List Spk → Except Bip158Err Bool

/-- Error enum of the module (`bip158::Error`). -/
inductive Error where
  | rpc : RpcErr → Error
  | bip158 : Bip158Err → Error
  | reorgDepthExceeded : Error
  | tryFromInt : Error
deriving DecidableEq

/-- Event enum produced by `FilterIter`. -/
inductive Event where
  | Block : CheckPoint → Block → Event
  | NoMatch : BlockId → Event
  | Tip : CheckPoint → Event
deriving DecidableEq

/-- Whether this event contains a matching block (`Event::is_match`). -/
def Event.is_match : Event → Bool
  | .Block _ _ => true
  | _ => false

/-- Height of the event (`Event::height`): the checkpoint height for
`Block`/`Tip`, the block id's height for `NoMatch`. -/
def Event.height : Event → Nat
  | .Block cp _ => cp.height
  | .Tip cp => cp.height
  | .NoMatch id => id.height

/-- Predicate singling out `Tip` events (statement-level discriminator). -/
def Event.is_tip : Event → Bool
  | .Tip _ => true
  | _ => false

/-- Mutable state of the engine (`FilterIter` minus the borrowed client):
the SPK inventory, the current checkpoint and the cached header info. -/
structure FilterIter where
  spks : List Spk
  cp : CheckPoint
  header : Option Header
deriving DecidableEq

/-- Construct a `FilterIter` (`FilterIter::new`): no cached header. -/
def FilterIter.new (cp : CheckPoint) (spks : List Spk) : FilterIter :=
  ⟨spks, cp, none⟩

/-- Outcome of one call to `FilterIter::next`.  `event e s` is
`Some(Ok(e))` with post-state `s`; `eos s` is `None` (end of stream) with
post-state `s`; `fail err s` is `Some(Err(err))` with post-state `s`;
`panic` is the `.expect("we found a base")` failure; `diverge` means the
rewind loop exceeded the supplied fuel (the source loop is unbounded). -/
inductive StepOutcome where
  | event : Event → FilterIter → StepOutcome
  | eos : FilterIter → StepOutcome
  | fail : Error → FilterIter → StepOutcome
  | panic : StepOutcome
  | diverge : StepOutcome
deriving DecidableEq

/-- The `u32::try_from` conversion applied to a node-reported height
(`header.height.try_into()?`): fails with `TryFromInt` outside the u32 range,
never wraps or truncates. -/
def u32_try_into (n : Nat) : Except Error Nat :=
  if n < 2 ^ 32 then .ok n else .error .tryFromInt

/-- The base-finding scan (`FilterIter::find_base`), iterating the checkpoint
list from the tip: query the node's best-chain hash at each checkpoint height;
on the first agreement fetch and return that block's header info; error with
`ReorgDepthExceeded` when the whole chain disagrees. -/
def find_base (node : Node) : List BlockId → Except Error Header
  | [] => .error .reorgDepthExceeded
  | c :: rest =>
    match node.get_block_hash c.height with
    | .error e => .error (.rpc e)
    | .ok fetched =>
      if fetched = c.hash then
        match node.get_block_header_info fetched with
        | .error e => .error (.rpc e)
        | .ok h => .ok h
      else
        find_base node rest

/-- The reorg rewind loop of `FilterIter::next`: while the fetched header has
negative confirmations, follow `previous_block_hash` and re-fetch, counting
rewinds.  The source loop is unbounded; `fuel` bounds it here, with `none`
meaning the loop would still be running after `fuel` rewinds. -/
def rewind (node : Node) (h : Header) (ct : Nat) :
    Nat → Option (Except Error (Header × Nat))
  | 0 => if h.confirmations < 0 then none else some (.ok (h, ct))
  | fuel + 1 =>
    if h.confirmations < 0 then
      match h.previous_block_hash with
      | none => some (.error .reorgDepthExceeded)
      | some prev =>
        match node.get_block_header_info prev with
        | .error e => some (.error (.rpc e))
        | .ok ph => rewind node ph (ct + 1) fuel
    else
      some (.ok (h, ct))

/-- Continuation of `FilterIter::next` once the working header is resolved:
`s0` is the engine state with the cached header already taken (`None`), `cp`
the local checkpoint variable, `header` the working header. -/
def nextStepCont (node : Node) (s0 : FilterIter) (cp : CheckPoint)
    (header : Header) (fuel : Nat) : StepOutcome :=
  match header.next_block_hash with
  | none => .eos s0
  | some next_hash0 =>
    match node.get_block_header_info next_hash0 with
    | .error e => .fail (.rpc e) s0
    | .ok first_next =>
      match rewind node first_next 0 fuel with
      | none => .diverge
      | some (.error e) => .fail e s0
      | some (.ok (next_header, reorg_ct)) =>
        match u32_try_into next_header.height with
        | .error e => .fail e s0
        | .ok next_height =>
          match (if 0 < reorg_ct then cp.range_le next_height else some cp) with
          | none => .fail .reorgDepthExceeded s0
          | some cp1 =>
            match node.get_block_filter next_header.hash with
            | .error e => .fail (.rpc e) s0
            | .ok filter_bytes =>
              match node.match_any filter_bytes next_header.hash s0.spks with
              | .error e => .fail (.bip158 e) s0
              | .ok matched =>
                if matched then
                  match node.get_block next_header.hash with
                  | .error e => .fail (.rpc e) s0
                  | .ok block =>
                    .event
                      (.Block (cp1.insert ⟨next_height, next_header.hash⟩) block)
                      ⟨s0.spks, cp1.insert ⟨next_height, next_header.hash⟩,
                        some next_header⟩
                else if next_header.next_block_hash = none then
                  .event (.Tip (cp1.insert ⟨next_height, next_header.hash⟩))
                    ⟨s0.spks, cp1.insert ⟨next_height, next_header.hash⟩,
                      some next_header⟩
                else
                  .event (.NoMatch ⟨next_height, next_header.hash⟩)
                    ⟨s0.spks, cp1, some next_header⟩

/-- One call to `FilterIter::next` (the `Iterator` implementation): take the
cached header (this clears it in the stored state), or run base-finding,
convert the height, truncate the local checkpoint (`.expect` on failure), and
continue with `nextStepCont`. -/
def nextStep (node : Node) (s : FilterIter) (fuel : Nat) : StepOutcome :=
  let s0 : FilterIter := ⟨s.spks, s.cp, none⟩
  match s.header with
  | some header => nextStepCont node s0 s.cp header fuel
  | none =>
    match find_base node s.cp.toList with
    | .error e => .fail e s0
    | .ok header =>
      match u32_try_into header.height with
      | .error e => .fail e s0
      | .ok height =>
        match s.cp.range_le height with
        | none => .panic
        | some cp => nextStepCont node s0 cp header fuel

/-- The checkpoint-chain invariant from the spec: walking from any node toward
its predecessor strictly decreases height. -/
def CheckPoint.Descending (cp : CheckPoint) : Prop :=
  cp.toList.Pairwise (fun a b => b.height < a.height)

theorem dropWhile_append_of_forall {α : Type} (p : α → Bool) (pre : List α) (c : α)
    (rest : List α) (hpre : ∀ b ∈ pre, p b = true) (hc : p c = false) :
    (pre ++ c :: rest).dropWhile p = c :: rest := by
  induction pre with
  | nil => simp [List.dropWhile_cons, hc]
  | cons b pre ih =>
    have hb : p b = true := hpre b (by simp)
    simp only [List.cons_append, List.dropWhile_cons, hb, if_pos]
    exact ih fun x hx => hpre x (by simp [hx])

/-- On a descending chain split as `pre ++ c :: rest`, truncation to `c`'s
height keeps exactly `c :: rest`. -/
theorem range_le_of_split (cp : CheckPoint) (pre : List BlockId) (c : BlockId)
    (rest : List BlockId) (hsplit : cp.toList = pre ++ c :: rest)
    (hdesc : cp.Descending) :
    cp.range_le c.height = some ⟨c, rest⟩ := by
  have hdesc' := hdesc
  unfold CheckPoint.Descending at hdesc'
  rw [hsplit, List.pairwise_append] at hdesc'
  have hpre : ∀ b ∈ pre, decide (c.height < b.height) = true := by
    intro b hb
    exact decide_eq_true (hdesc'.2.2 b hb c (by simp))
  have hc : decide (c.height < c.height) = false := by simp
  unfold CheckPoint.range_le
  rw [hsplit, dropWhile_append_of_forall _ pre c rest hpre hc]

/-- Base-finding returns the header info of the first agreeing checkpoint. -/
theorem find_base_first_agree (node : Node) (pre : List BlockId) (c : BlockId)
    (rest : List BlockId) (h : Header)
    (hpre : ∀ b ∈ pre, ∃ fh, node.get_block_hash b.height = .ok fh ∧ fh ≠ b.hash)
    (hc : node.get_block_hash c.height = .ok c.hash)
    (hh : node.get_block_header_info c.hash = .ok h) :
    find_base node (pre ++ c :: rest) = .ok h := by
  induction pre with
  | nil => simp [find_base, hc, hh]
  | cons b pre ih =>
    obtain ⟨fh, hfh, hne⟩ := hpre b (by simp)
    simp only [List.cons_append, find_base, hfh]
    rw [if_neg hne]
    exact ih fun x hx => hpre x (by simp [hx])

/-- Base-finding fails with `ReorgDepthExceeded` when every checkpoint height
resolves to a different best-chain hash. -/
theorem find_base_all_disagree (node : Node) (l : List BlockId)
    (hl : ∀ b ∈ l, ∃ fh, node.get_block_hash b.height = .ok fh ∧ fh ≠ b.hash) :
    find_base node l = .error .reorgDepthExceeded := by
  induction l with
  | nil => rfl
  | cons b l ih =>
    obtain ⟨fh, hfh, hne⟩ := hl b (by simp)
    simp only [find_base, hfh]
    rw [if_neg hne]
    exact ih fun x hx => hl x (by simp [hx])

/-- Concrete node whose best chain is the single genesis block of hash 5. -/
def wrongChainNode : Node where
  get_block_hash := fun h => if h = 0 then .ok 5 else .error ()
  get_block_header_info := fun _ => .error ()
  get_block_filter := fun _ => .error ()
  get_block := fun _ => .error ()
  match_any := fun _ _ _ => .ok false

/-- Concrete node for witnessing base-finding: best-chain hashes are 77 at
height 5 and 5 at height 0; header info is served for hash 5. -/
def witNode : Node where
  get_block_hash := fun h => if h = 5 then .ok 77 else if h = 0 then .ok 5 else .error ()
  get_block_header_info := fun hash =>
    if hash = 5 then
      .ok ⟨0, 5, 6, none, some 11⟩
    else
      .error ()
  get_block_filter := fun _ => .error ()
  get_block := fun _ => .error ()
  match_any := fun _ _ _ => .ok false

/-- Concrete local chain whose tip (height 5, hash 50) is stale but whose
genesis (height 0, hash 5) agrees with `witNode`. -/
def witCp : CheckPoint := ⟨⟨5, 50⟩, [⟨0, 5⟩]⟩

/-- C1: with no cached header, `next()` runs base-finding from the tip toward
genesis; the first checkpoint whose remote best-chain hash equals its stored
hash is the agreement point, the local chain is truncated to that height and
that block's header is fetched as the working header; if every checkpoint
disagrees the step fails with `ReorgDepthExceeded`, and in particular an
engine built on a checkpoint whose hash is nowhere in the node's chain fails
with `ReorgDepthExceeded` on the very first step. -/
theorem base_finding_spec :
    (∀ (node : Node) (s : FilterIter) (fuel : Nat) (pre : List BlockId) (c : BlockId)
        (rest : List BlockId) (h : Header),
      s.header = none →
      s.cp.Descending →
      s.cp.toList = pre ++ c :: rest →
      (∀ b ∈ pre, ∃ fh, node.get_block_hash b.height = .ok fh ∧ fh ≠ b.hash) →
      node.get_block_hash c.height = .ok c.hash →
      node.get_block_header_info c.hash = .ok h →
      h.height = c.height →
      h.height < 2 ^ 32 →
      s.cp.range_le h.height = some ⟨c, rest⟩ ∧
        nextStep node s fuel = nextStepCont node ⟨s.spks, s.cp, none⟩ ⟨c, rest⟩ h fuel) ∧
    (∀ (node : Node) (s : FilterIter) (fuel : Nat),
      s.header = none →
      (∀ b ∈ s.cp.toList, ∃ fh, node.get_block_hash b.height = .ok fh ∧ fh ≠ b.hash) →
      nextStep node s fuel = .fail .reorgDepthExceeded ⟨s.spks, s.cp, none⟩) ∧
    nextStep wrongChainNode (FilterIter.new ⟨⟨0, 999⟩, []⟩ []) 0 =
      .fail .reorgDepthExceeded ⟨[], ⟨⟨0, 999⟩, []⟩, none⟩ := by
  refine ⟨?_, ?_, by decide⟩
  · intro node s fuel pre c rest h hnone hdesc hsplit hpre hc hh hheq hlt
    have hrange : s.cp.range_le h.height = some ⟨c, rest⟩ := by
      rw [hheq]; exact range_le_of_split s.cp pre c rest hsplit hdesc
    refine ⟨hrange, ?_⟩
    have hfb : find_base node s.cp.toList = .ok h := by
      rw [hsplit]; exact find_base_first_agree node pre c rest h hpre hc hh
    simp only [nextStep, hnone, hfb, u32_try_into, if_pos hlt, hrange]
  · intro node s fuel hnone hall
    have hfb : find_base node s.cp.toList = .error .reorgDepthExceeded :=
      find_base_all_disagree node s.cp.toList hall
    simp only [nextStep, hnone, hfb]

/-- Witness for C1: both universally quantified parts applied at concrete
inputs. -/
theorem base_finding_spec_witness :
    ((witCp.range_le 0 = some ⟨⟨0, 5⟩, []⟩ ∧
      nextStep witNode (FilterIter.new witCp []) 3 =
        nextStepCont witNode ⟨[], witCp, none⟩ ⟨⟨0, 5⟩, []⟩ ⟨0, 5, 6, none, some 11⟩ 3) ∧
     nextStep wrongChainNode (FilterIter.new ⟨⟨0, 42⟩, []⟩ []) 2 =
       .fail .reorgDepthExceeded ⟨[], ⟨⟨0, 42⟩, []⟩, none⟩) := by
  constructor
  · exact base_finding_spec.1 witNode (FilterIter.new witCp []) 3 [⟨5, 50⟩] ⟨0, 5⟩ [] _
      rfl (by norm_num [CheckPoint.Descending, CheckPoint.toList, witCp, FilterIter.new,
        List.pairwise_cons]) rfl
      (by intro b hb; simp only [List.mem_singleton] at hb; subst hb
          exact ⟨77, rfl, by decide⟩)
      rfl rfl rfl (by norm_num)
  · exact base_finding_spec.2.1 wrongChainNode (FilterIter.new ⟨⟨0, 42⟩, []⟩ []) 2 rfl
      (by intro b hb
          simp only [FilterIter.new, CheckPoint.toList, List.mem_singleton] at hb; subst hb
          exact ⟨5, rfl, by decide⟩)

/-- The finiteness precondition of the rewind loop: following a recorded
previous hash from any header the node serves reaches a header of strictly
smaller height. -/
def PrevDecreasing (node : Node) : Prop :=
  ∀ (hh : Hash) (h : Header) (p : Hash) (ph : Header),
    node.get_block_header_info hh = .ok h →
    h.previous_block_hash = some p →
    node.get_block_header_info p = .ok ph →
    ph.height < h.height

theorem rewind_ne_none (node : Node) (hdec : PrevDecreasing node) :
    ∀ (fuel : Nat) (hh : Hash) (h : Header) (ct : Nat),
      node.get_block_header_info hh = .ok h → h.height < fuel →
      rewind node h ct fuel ≠ none := by
  intro fuel
  induction fuel with
  | zero => intro hh h ct _ hlt; omega
  | succ f ih =>
    intro hh h ct hserved hlt
    unfold rewind
    by_cases hconf : h.confirmations < 0
    · rw [if_pos hconf]
      cases hp : h.previous_block_hash with
      | none => simp
      | some p =>
        cases hph : node.get_block_header_info p with
        | error e => simp [hph]
        | ok ph =>
          have hlt2 : ph.height < f := by
            have := hdec hh h p ph hserved hp hph
            omega
          simpa [hph] using ih p ph (ct + 1) hph hlt2
    · rw [if_neg hconf]; simp

theorem rewind_ok_nonneg (node : Node) :
    ∀ (fuel : Nat) (h : Header) (ct ct1 : Nat) (h1 : Header),
      rewind node h ct fuel = some (.ok (h1, ct1)) → 0 ≤ h1.confirmations := by
  intro fuel
  induction fuel with
  | zero =>
    intro h ct ct1 h1 hr
    unfold rewind at hr
    by_cases hconf : h.confirmations < 0
    · rw [if_pos hconf] at hr; exact absurd hr (by simp)
    · rw [if_neg hconf] at hr
      obtain ⟨rfl, rfl⟩ : h = h1 ∧ ct = ct1 := by
        simpa using hr
      omega
  | succ f ih =>
    intro h ct ct1 h1 hr
    unfold rewind at hr
    by_cases hconf : h.confirmations < 0
    · rw [if_pos hconf] at hr
      cases hp : h.previous_block_hash with
      | none => rw [hp] at hr; exact absurd hr (by simp)
      | some p =>
        rw [hp] at hr
        cases hph : node.get_block_header_info p with
        | error e =>
          simp only [hph] at hr
          exact absurd hr (by simp)
        | ok ph =>
          simp only [hph] at hr
          exact ih ph (ct + 1) ct1 h1 hr
    · rw [if_neg hconf] at hr
      obtain ⟨rfl, rfl⟩ : h = h1 ∧ ct = ct1 := by
        simpa using hr
      omega

/-- Concrete node for witnessing the rewind loop: hash 101 is a reorged-off
block of height 1 whose ancestor (hash 100, height 0) is confirmed. -/
def rewNode : Node where
  get_block_hash := fun _ => .error ()
  get_block_header_info := fun hash =>
    if hash = 101 then
      .ok ⟨1, 101, -1, some 100, none⟩
    else if hash = 100 then
      .ok ⟨0, 100, 3, none, some 7⟩
    else
      .error ()
  get_block_filter := fun _ => .error ()
  get_block := fun _ => .error ()
  match_any := fun _ _ _ => .ok false

theorem rewNode_prevDecreasing : PrevDecreasing rewNode := by
  intro hh h p ph h1 h2 h3
  unfold rewNode at h1 h3
  simp only at h1 h3
  split_ifs at h1 with c1 c2
  · cases h1
    have hp : p = 100 := by simpa using h2.symm
    subst hp
    norm_num at h3
    cases h3
    decide
  · cases h1
    simp at h2

/-- C2: the rewind loop follows previous hashes while confirmations are
negative; under the finiteness precondition (heights strictly decrease along
previous-hash links of node-served headers) it terminates within `height`
rewinds, any normal exit carries a header with non-negative confirmations,
and a negative-confirmation header with no previous hash makes the loop fail
with `ReorgDepthExceeded`. -/
theorem rewind_loop_spec :
    (∀ (node : Node) (fuel : Nat) (hh : Hash) (h : Header) (ct : Nat),
      PrevDecreasing node → node.get_block_header_info hh = .ok h →
      h.height < fuel → rewind node h ct fuel ≠ none) ∧
    (∀ (node : Node) (fuel : Nat) (h : Header) (ct ct1 : Nat) (h1 : Header),
      rewind node h ct fuel = some (.ok (h1, ct1)) → 0 ≤ h1.confirmations) ∧
    (∀ (node : Node) (fuel : Nat) (h : Header) (ct : Nat),
      h.confirmations < 0 → h.previous_block_hash = none →
      rewind node h ct (fuel + 1) = some (.error .reorgDepthExceeded)) := by
  refine ⟨?_, ?_, ?_⟩
  · intro node fuel hh h ct hdec hserved hlt
    exact rewind_ne_none node hdec fuel hh h ct hserved hlt
  · intro node fuel h ct ct1 h1 hr
    exact rewind_ok_nonneg node fuel h ct ct1 h1 hr
  · intro node fuel h ct hconf hp
    unfold rewind
    rw [if_pos hconf, hp]

/-- Witness for C2: the three parts of the rewind specification applied to the
concrete `rewNode` scenario. -/
theorem rewind_loop_spec_witness :
    (rewind rewNode ⟨1, 101, -1, some 100, none⟩ 0 2 ≠ none) ∧
    (rewind rewNode ⟨1, 101, -1, some 100, none⟩ 0 2 =
        some (.ok (⟨0, 100, 3, none, some 7⟩, 1)) →
      (0 : Int) ≤ (⟨0, 100, 3, none, some 7⟩ : Header).confirmations) ∧
    rewind rewNode ⟨9, 500, -2, none, some 7⟩ 0 1 =
      some (.error .reorgDepthExceeded) := by
  refine ⟨?_, ?_, ?_⟩
  · exact rewind_loop_spec.1 rewNode 2 101 ⟨1, 101, -1, some 100, none⟩ 0
      rewNode_prevDecreasing rfl (by decide)
  · intro hr
    exact rewind_loop_spec.2.1 rewNode 2 ⟨1, 101, -1, some 100, none⟩ 0 1
      ⟨0, 100, 3, none, some 7⟩ hr
  · exact rewind_loop_spec.2.2 rewNode 0 ⟨9, 500, -2, none, some 7⟩ 0 (by decide) rfl

theorem nextStepCont_fail (node : Node) (s0 : FilterIter) (cp : CheckPoint)
    (header : Header) (fuel : Nat) (err : Error) (s1 : FilterIter)
    (h : nextStepCont node s0 cp header fuel = .fail err s1) : s1 = s0 := by
  unfold nextStepCont at h
  iterate 12 (all_goals try split at h)
  all_goals simp_all

theorem nextStepCont_eos (node : Node) (s0 : FilterIter) (cp : CheckPoint)
    (header : Header) (fuel : Nat) (s1 : FilterIter)
    (h : nextStepCont node s0 cp header fuel = .eos s1) : s1 = s0 := by
  unfold nextStepCont at h
  iterate 12 (all_goals try split at h)
  all_goals simp_all

theorem nextStepCont_ne_panic (node : Node) (s0 : FilterIter) (cp : CheckPoint)
    (header : Header) (fuel : Nat) :
    nextStepCont node s0 cp header fuel ≠ .panic := by
  unfold nextStepCont
  iterate 12 (all_goals try split)
  all_goals simp

theorem nextStep_fail_state (node : Node) (s : FilterIter) (fuel : Nat)
    (err : Error) (s1 : FilterIter) (h : nextStep node s fuel = .fail err s1) :
    s1 = ⟨s.spks, s.cp, none⟩ := by
  unfold nextStep at h
  iterate 4 (all_goals try split at h)
  all_goals first
    | exact nextStepCont_fail _ _ _ _ _ _ _ h
    | simp_all

theorem nextStep_eos_state (node : Node) (s : FilterIter) (fuel : Nat)
    (s1 : FilterIter) (h : nextStep node s fuel = .eos s1) :
    s1 = ⟨s.spks, s.cp, none⟩ := by
  unfold nextStep at h
  iterate 4 (all_goals try split at h)
  all_goals first
    | exact nextStepCont_eos _ _ _ _ _ _ h
    | simp_all

/-- Concrete node whose header queries always fail with a transport error. -/
def rpcDownNode : Node where
  get_block_hash := fun _ => .error ()
  get_block_header_info := fun _ => .error ()
  get_block_filter := fun _ => .error ()
  get_block := fun _ => .error ()
  match_any := fun _ _ _ => .ok false

/-- Concrete engine state with a cached header whose next hash is 1. -/
def cachedState : FilterIter := ⟨[], ⟨⟨0, 0⟩, []⟩, some ⟨0, 0, 1, none, some 1⟩⟩

/-- C5 counterexample: a step that returns a typed error has nonetheless
committed header state — the cached header was taken (cleared) at the start of
the step, so the stored header after the failing call differs from the stored
header before it. -/
theorem error_step_clears_header :
    nextStep rpcDownNode cachedState 1 =
      .fail (.rpc ()) ⟨[], ⟨⟨0, 0⟩, []⟩, none⟩ ∧
    (⟨[], ⟨⟨0, 0⟩, []⟩, none⟩ : FilterIter).header ≠ cachedState.header := by
  exact ⟨by decide, by decide⟩

/-- C5 amended: a call that returns an error commits no checkpoint change (no
truncation or extension of the stored chain) and surfaces the failure as a
typed error value distinct from end-of-stream; the one state change it leaves
behind is that the cached header has been cleared (it is taken at the start of
the step). -/
theorem error_frame_spec (node : Node) (s : FilterIter) (fuel : Nat)
    (err : Error) (s1 : FilterIter) (h : nextStep node s fuel = .fail err s1) :
    s1.cp = s.cp ∧ s1.header = none ∧ s1.spks = s.spks := by
  have h1 := nextStep_fail_state node s fuel err s1 h
  rw [h1]
  exact ⟨rfl, rfl, rfl⟩

/-- Witness for C5's amended theorem at a concrete failing step. -/
theorem error_frame_spec_witness :
    (⟨[], ⟨⟨0, 0⟩, []⟩, none⟩ : FilterIter).cp = cachedState.cp ∧
    (⟨[], ⟨⟨0, 0⟩, []⟩, none⟩ : FilterIter).header = none ∧
    (⟨[], ⟨⟨0, 0⟩, []⟩, none⟩ : FilterIter).spks = cachedState.spks :=
  error_frame_spec rpcDownNode cachedState 1 (.rpc ())
    ⟨[], ⟨⟨0, 0⟩, []⟩, none⟩ (by decide)

theorem u32_try_into_ok (n : Nat) (h : n < 2 ^ 32) : u32_try_into n = .ok n := by
  unfold u32_try_into
  rw [if_pos h]

/-- A header that is already confirmed is returned unchanged by the rewind
loop, with zero additional rewinds, whatever the fuel. -/
theorem rewind_noop (node : Node) (h : Header) (ct fuel : Nat)
    (hconf : ¬h.confirmations < 0) :
    rewind node h ct fuel = some (.ok (h, ct)) := by
  cases fuel with
  | zero => unfold rewind; rw [if_neg hconf]
  | succ f => unfold rewind; rw [if_neg hconf]

theorem nextStep_cached (node : Node) (s : FilterIter) (fuel : Nat)
    (header : Header) (hc : s.header = some header) :
    nextStep node s fuel = nextStepCont node ⟨s.spks, s.cp, none⟩ s.cp header fuel := by
  unfold nextStep
  rw [hc]

/-- C3: for a step that resolves a next block (cached working header, resolved
header `nheader` after `ct` rewinds, checkpoint base `cpBase` after the purge):
on a filter match the full block is fetched, the chain is extended with the
block and `Block{checkpoint, block}` is emitted; on no match at the node's tip
(no next hash) the chain is extended with the block id and `Tip{checkpoint}`
is emitted; on no match elsewhere `NoMatch{block_id}` is emitted and the
checkpoint chain is not extended. -/
theorem filter_match_event_spec (node : Node) (s : FilterIter) (fuel : Nat)
    (header nh0 nheader : Header) (nh : Hash) (ct : Nat) (cpBase : CheckPoint)
    (fb : FilterBytes) (m : Bool)
    (hcache : s.header = some header)
    (hnext : header.next_block_hash = some nh)
    (hfetch : node.get_block_header_info nh = .ok nh0)
    (hrew : rewind node nh0 0 fuel = some (.ok (nheader, ct)))
    (hlt : nheader.height < 2 ^ 32)
    (hbase : (if 0 < ct then s.cp.range_le nheader.height else some s.cp) = some cpBase)
    (hfb : node.get_block_filter nheader.hash = .ok fb)
    (hm : node.match_any fb nheader.hash s.spks = .ok m) :
    (m = true → ∀ blk, node.get_block nheader.hash = .ok blk →
      nextStep node s fuel =
        .event (.Block (cpBase.insert ⟨nheader.height, nheader.hash⟩) blk)
          ⟨s.spks, cpBase.insert ⟨nheader.height, nheader.hash⟩, some nheader⟩) ∧
    (m = false → nheader.next_block_hash = none →
      nextStep node s fuel =
        .event (.Tip (cpBase.insert ⟨nheader.height, nheader.hash⟩))
          ⟨s.spks, cpBase.insert ⟨nheader.height, nheader.hash⟩, some nheader⟩) ∧
    (m = false → ∀ nnh, nheader.next_block_hash = some nnh →
      nextStep node s fuel =
        .event (.NoMatch ⟨nheader.height, nheader.hash⟩)
          ⟨s.spks, cpBase, some nheader⟩) := by
  have hu : u32_try_into nheader.height = .ok nheader.height := u32_try_into_ok _ hlt
  have hstep := nextStep_cached node s fuel header hcache
  refine ⟨?_, ?_, ?_⟩
  · intro hmT blk hblk
    subst hmT
    rw [hstep]
    unfold nextStepCont
    simp only [hnext, hfetch, hrew, hu, hbase, hfb, hm, hblk]
    simp
  · intro hmF htip
    subst hmF
    rw [hstep]
    unfold nextStepCont
    simp only [hnext, hfetch, hrew, hu, hbase, hfb, hm, htip]
    simp
  · intro hmF nnh hnnh
    subst hmF
    rw [hstep]
    unfold nextStepCont
    simp only [hnext, hfetch, hrew, hu, hbase, hfb, hm, hnnh]
    simp

/-- Concrete node for witnessing the filter-match branch: block hash 1 at
height 1 is confirmed, its filter is its own hash and matching tests SPK
membership of the filter bytes. -/
def matchNode : Node where
  get_block_hash := fun _ => .error ()
  get_block_header_info := fun x =>
    if x = 1 then .ok ⟨1, 1, 1, some 0, some 2⟩ else .error ()
  get_block_filter := fun x => .ok x
  get_block := fun x => .ok (x + 50)
  match_any := fun fb _ spks => .ok (spks.contains fb)

/-- Witness for C3: the match branch of the event case analysis at a concrete
node, state and block. -/
theorem filter_match_event_spec_witness :
    nextStep matchNode ⟨[1], ⟨⟨0, 0⟩, []⟩, some ⟨0, 0, 2, none, some 1⟩⟩ 1 =
      .event (.Block ((⟨⟨0, 0⟩, []⟩ : CheckPoint).insert ⟨1, 1⟩) 51)
        ⟨[1], (⟨⟨0, 0⟩, []⟩ : CheckPoint).insert ⟨1, 1⟩,
          some ⟨1, 1, 1, some 0, some 2⟩⟩ :=
  (filter_match_event_spec matchNode ⟨[1], ⟨⟨0, 0⟩, []⟩, some ⟨0, 0, 2, none, some 1⟩⟩
    1 ⟨0, 0, 2, none, some 1⟩ ⟨1, 1, 1, some 0, some 2⟩ ⟨1, 1, 1, some 0, some 2⟩
    1 0 ⟨⟨0, 0⟩, []⟩ 1 true rfl rfl rfl rfl (by norm_num) rfl rfl rfl).1 rfl 51 rfl

theorem dropWhile_all_le (hmax : Nat) :
    ∀ (l : List BlockId), l.Pairwise (fun a b => b.height < a.height) →
    ∀ (b : BlockId) (rest : List BlockId),
      l.dropWhile (fun c => decide (hmax < c.height)) = b :: rest →
      ∀ x ∈ b :: rest, x.height ≤ hmax := by
  intro l
  induction l with
  | nil => intro _ b rest hdrop; simp at hdrop
  | cons a l ih =>
    intro hdesc b rest hdrop
    rw [List.dropWhile_cons] at hdrop
    by_cases ha : hmax < a.height
    · simp only [decide_eq_true ha, if_pos] at hdrop
      exact ih (List.pairwise_cons.mp hdesc).2 b rest hdrop
    · simp only [decide_eq_false ha, Bool.false_eq_true, if_false] at hdrop
      obtain ⟨rfl, rfl⟩ : a = b ∧ l = rest := by
        constructor <;> { injection hdrop }
      intro x hx
      rcases List.mem_cons.mp hx with rfl | hx
      · omega
      · have := (List.pairwise_cons.mp hdesc).1 x hx
        omega

/-- On a descending chain, every node surviving truncation to `hmax` has
height at most `hmax`. -/
theorem range_le_all_le (cp : CheckPoint) (hmax : Nat) (cp1 : CheckPoint)
    (hdesc : cp.Descending) (h : cp.range_le hmax = some cp1) :
    ∀ x ∈ cp1.toList, x.height ≤ hmax := by
  unfold CheckPoint.range_le at h
  cases hd : cp.toList.dropWhile (fun b => decide (hmax < b.height)) with
  | nil => rw [hd] at h; exact absurd h (by simp)
  | cons b rest =>
    rw [hd] at h
    obtain rfl : CheckPoint.mk b rest = cp1 := by
      simpa using h
    exact dropWhile_all_le hmax cp.toList hdesc b rest hd

/-- A node of the extended chain is the inserted block id or one of the
surviving original nodes. -/
theorem insert_toList_subset (cp : CheckPoint) (bid : BlockId) :
    ∀ x ∈ (cp.insert bid).toList, x = bid ∨ x ∈ cp.toList := by
  intro x hx
  simp only [CheckPoint.insert, CheckPoint.toList, List.mem_cons] at hx
  rcases hx with rfl | hx
  · exact Or.inl rfl
  · exact Or.inr ((List.dropWhile_sublist _).subset hx)

/-- C6: when at least one rewind occurred (`0 < ct`), the local chain is
truncated to the greatest checkpoint at height at most the rewind-resolved
height before any extension or emission, failing with `ReorgDepthExceeded`
when no checkpoint qualifies; consequently, after an event-producing step with
a rewind, the stored checkpoint chain has no block above the resolved
height. -/
theorem rewind_purge_spec (node : Node) (s : FilterIter) (fuel : Nat)
    (header nh0 nheader : Header) (nh : Hash) (ct : Nat)
    (hcache : s.header = some header)
    (hnext : header.next_block_hash = some nh)
    (hfetch : node.get_block_header_info nh = .ok nh0)
    (hrew : rewind node nh0 0 fuel = some (.ok (nheader, ct)))
    (hct : 0 < ct)
    (hlt : nheader.height < 2 ^ 32) :
    (s.cp.range_le nheader.height = none →
      nextStep node s fuel = .fail .reorgDepthExceeded ⟨s.spks, s.cp, none⟩) ∧
    (s.cp.Descending →
      ∀ e s1, nextStep node s fuel = .event e s1 →
        ∀ b ∈ s1.cp.toList, b.height ≤ nheader.height) := by
  have hu : u32_try_into nheader.height = .ok nheader.height := u32_try_into_ok _ hlt
  have hfail : s.cp.range_le nheader.height = none →
      nextStep node s fuel = .fail .reorgDepthExceeded ⟨s.spks, s.cp, none⟩ := by
    intro hnone
    rw [nextStep_cached node s fuel header hcache]
    unfold nextStepCont
    simp only [hnext, hfetch, hrew, hu, if_pos hct, hnone]
  refine ⟨hfail, ?_⟩
  intro hdesc e s1 hstep
  cases hrange : s.cp.range_le nheader.height with
  | none =>
    rw [hstep] at hfail
    exact absurd (hfail hrange) (by simp)
  | some cp1 =>
    have hall := range_le_all_le s.cp nheader.height cp1 hdesc hrange
    rw [nextStep_cached node s fuel header hcache] at hstep
    unfold nextStepCont at hstep
    simp only [hnext, hfetch, hrew, hu, if_pos hct, hrange] at hstep
    iterate 6 (all_goals try split at hstep)
    all_goals cases hstep
    all_goals intro b hb
    all_goals try exact hall b hb
    all_goals
      rcases insert_toList_subset cp1 _ b hb with rfl | hmem
    all_goals try exact le_refl _
    all_goals exact hall b hmem

/-- Concrete node for witnessing a rewind: hash 20 (height 2) has been
reorged off (confirmations −1) and its ancestor hash 10 (height 1) is
confirmed. -/
def reorgNode : Node where
  get_block_hash := fun _ => .error ()
  get_block_header_info := fun x =>
    if x = 20 then .ok ⟨2, 20, -1, some 10, none⟩
    else if x = 10 then .ok ⟨1, 10, 2, some 0, some 21⟩
    else .error ()
  get_block_filter := fun x => .ok x
  get_block := fun _ => .error ()
  match_any := fun _ _ _ => .ok false

/-- Witness for C6: the failing truncation and the no-block-above-resolved
height consequence at the concrete `reorgNode` rewind. -/
theorem rewind_purge_spec_witness :
    nextStep reorgNode ⟨[], ⟨⟨5, 99⟩, []⟩, some ⟨1, 10, 1, none, some 20⟩⟩ 3 =
      .fail .reorgDepthExceeded ⟨[], ⟨⟨5, 99⟩, []⟩, none⟩ ∧
    (∀ b ∈ (⟨[], ⟨⟨0, 0⟩, []⟩,
        some ⟨1, 10, 2, some 0, some 21⟩⟩ : FilterIter).cp.toList,
      b.height ≤ 1) := by
  constructor
  · exact (rewind_purge_spec reorgNode ⟨[], ⟨⟨5, 99⟩, []⟩, some ⟨1, 10, 1, none, some 20⟩⟩
      3 ⟨1, 10, 1, none, some 20⟩ ⟨2, 20, -1, some 10, none⟩
      ⟨1, 10, 2, some 0, some 21⟩ 20 1 rfl rfl rfl rfl (by decide) (by norm_num)).1 rfl
  · exact (rewind_purge_spec reorgNode ⟨[], ⟨⟨0, 0⟩, []⟩, some ⟨1, 10, 1, none, some 20⟩⟩
      3 ⟨1, 10, 1, none, some 20⟩ ⟨2, 20, -1, some 10, none⟩
      ⟨1, 10, 2, some 0, some 21⟩ 20 1 rfl rfl rfl rfl (by decide) (by norm_num)).2
      (by simp [CheckPoint.Descending, CheckPoint.toList])
      (.NoMatch ⟨1, 10⟩) ⟨[], ⟨⟨0, 0⟩, []⟩, some ⟨1, 10, 2, some 0, some 21⟩⟩ (by decide)

theorem u32_try_into_inv (n m : Nat) (h : u32_try_into n = .ok m) :
    m = n ∧ n < 2 ^ 32 := by
  unfold u32_try_into at h
  split_ifs at h with hn
  cases h
  exact ⟨rfl, hn⟩

theorem nextStepCont_event_inv (node : Node) (s0 : FilterIter) (cp : CheckPoint)
    (header : Header) (fuel : Nat) (e : Event) (s1 : FilterIter)
    (h : nextStepCont node s0 cp header fuel = .event e s1) :
    ∃ nheader : Header, s1.header = some nheader ∧ s1.spks = s0.spks ∧
      ((∃ cp2 blk, e = .Block cp2 blk ∧ s1.cp = cp2 ∧
          cp2.tip = ⟨nheader.height, nheader.hash⟩) ∨
       (∃ cp2, e = .Tip cp2 ∧ s1.cp = cp2 ∧
          cp2.tip = ⟨nheader.height, nheader.hash⟩ ∧
          nheader.next_block_hash = none) ∨
       (∃ bid, e = .NoMatch bid ∧ bid = ⟨nheader.height, nheader.hash⟩)) := by
  unfold nextStepCont at h
  iterate 10 (all_goals try split at h)
  all_goals cases h
  all_goals obtain ⟨rfl, hlt⟩ := u32_try_into_inv _ _ (by assumption)
  all_goals first
    | exact ⟨_, rfl, rfl, Or.inl ⟨_, _, rfl, rfl, rfl⟩⟩
    | exact ⟨_, rfl, rfl, Or.inr (Or.inl ⟨_, rfl, rfl, rfl, by assumption⟩)⟩
    | exact ⟨_, rfl, rfl, Or.inr (Or.inr ⟨_, rfl, rfl⟩)⟩

theorem nextStep_event_inv (node : Node) (s : FilterIter) (fuel : Nat)
    (e : Event) (s1 : FilterIter) (h : nextStep node s fuel = .event e s1) :
    ∃ cp header,
      nextStepCont node ⟨s.spks, s.cp, none⟩ cp header fuel = .event e s1 := by
  unfold nextStep at h
  iterate 4 (all_goals try split at h)
  all_goals first
    | exact ⟨_, _, h⟩
    | cases h

/-- C10: every `Block` event carries a checkpoint whose tip is the (height,
hash) pair of the resolved header whose block is delivered, every `Tip` event
carries a checkpoint whose tip is the emitted block id of the node's current
tip (the resolved header, which has no next hash), and in both cases the
engine's stored checkpoint after the step is exactly the checkpoint carried in
the event. -/
theorem event_checkpoint_consistency (node : Node) (s : FilterIter)
    (fuel : Nat) (e : Event) (s1 : FilterIter)
    (h : nextStep node s fuel = .event e s1) :
    ∃ nheader : Header, s1.header = some nheader ∧
      (∀ cp2 blk, e = .Block cp2 blk → s1.cp = cp2 ∧
        cp2.tip = ⟨nheader.height, nheader.hash⟩) ∧
      (∀ cp2, e = .Tip cp2 → s1.cp = cp2 ∧
        cp2.tip = ⟨nheader.height, nheader.hash⟩ ∧
        nheader.next_block_hash = none) := by
  obtain ⟨cp, header, hcont⟩ := nextStep_event_inv node s fuel e s1 h
  obtain ⟨nheader, hh, _, hcases⟩ :=
    nextStepCont_event_inv node _ cp header fuel e s1 hcont
  refine ⟨nheader, hh, ?_, ?_⟩
  · intro cp2 blk he
    subst he
    rcases hcases with ⟨cp3, blk3, he3, hcp, htip⟩ | ⟨cp3, he3, _⟩ | ⟨bid, he3, _⟩
    · cases he3
      exact ⟨hcp, htip⟩
    · cases he3
    · cases he3
  · intro cp2 he
    subst he
    rcases hcases with ⟨cp3, blk3, he3, _⟩ | ⟨cp3, he3, hcp, htip, hnone⟩ | ⟨bid, he3, _⟩
    · cases he3
    · cases he3
      exact ⟨hcp, htip, hnone⟩
    · cases he3

/-- Witness for C10 at the concrete `matchNode` Block event. -/
theorem event_checkpoint_consistency_witness :
    ∃ nheader : Header,
      (⟨[1], (⟨⟨0, 0⟩, []⟩ : CheckPoint).insert ⟨1, 1⟩,
        some ⟨1, 1, 1, some 0, some 2⟩⟩ : FilterIter).header = some nheader ∧
      (∀ cp2 blk,
        (Event.Block ((⟨⟨0, 0⟩, []⟩ : CheckPoint).insert ⟨1, 1⟩) 51) = .Block cp2 blk →
        (⟨[1], (⟨⟨0, 0⟩, []⟩ : CheckPoint).insert ⟨1, 1⟩,
          some ⟨1, 1, 1, some 0, some 2⟩⟩ : FilterIter).cp = cp2 ∧
        cp2.tip = ⟨nheader.height, nheader.hash⟩) ∧
      (∀ cp2,
        (Event.Block ((⟨⟨0, 0⟩, []⟩ : CheckPoint).insert ⟨1, 1⟩) 51) = .Tip cp2 →
        (⟨[1], (⟨⟨0, 0⟩, []⟩ : CheckPoint).insert ⟨1, 1⟩,
          some ⟨1, 1, 1, some 0, some 2⟩⟩ : FilterIter).cp = cp2 ∧
        cp2.tip = ⟨nheader.height, nheader.hash⟩ ∧
        nheader.next_block_hash = none) :=
  event_checkpoint_consistency matchNode
    ⟨[1], ⟨⟨0, 0⟩, []⟩, some ⟨0, 0, 2, none, some 1⟩⟩ 1
    (.Block ((⟨⟨0, 0⟩, []⟩ : CheckPoint).insert ⟨1, 1⟩) 51)
    ⟨[1], (⟨⟨0, 0⟩, []⟩ : CheckPoint).insert ⟨1, 1⟩,
      some ⟨1, 1, 1, some 0, some 2⟩⟩ (by decide)

/-- C8: heights are bounded to the u32 range — the conversion of any
node-reported height that does not fit u32 fails with `TryFromInt`, and both
conversion sites of `next()` (the base-finding height and the rewind-resolved
height) surface that failure as the step's typed error instead of wrapping or
truncating. -/
theorem height_bounds_spec :
    (∀ n, 2 ^ 32 ≤ n → u32_try_into n = .error .tryFromInt) ∧
    (∀ (node : Node) (s : FilterIter) (fuel : Nat) (h : Header),
      s.header = none → find_base node s.cp.toList = .ok h →
      2 ^ 32 ≤ h.height →
      nextStep node s fuel = .fail .tryFromInt ⟨s.spks, s.cp, none⟩) ∧
    (∀ (node : Node) (s : FilterIter) (fuel : Nat) (header nh0 nheader : Header)
        (nh : Hash) (ct : Nat),
      s.header = some header → header.next_block_hash = some nh →
      node.get_block_header_info nh = .ok nh0 →
      rewind node nh0 0 fuel = some (.ok (nheader, ct)) →
      2 ^ 32 ≤ nheader.height →
      nextStep node s fuel = .fail .tryFromInt ⟨s.spks, s.cp, none⟩) := by
  have herr : ∀ n, 2 ^ 32 ≤ n → u32_try_into n = .error .tryFromInt := by
    intro n hn
    unfold u32_try_into
    rw [if_neg (by omega)]
  refine ⟨herr, ?_, ?_⟩
  · intro node s fuel h hnone hfb hge
    unfold nextStep
    simp only [hnone, hfb, herr h.height hge]
  · intro node s fuel header nh0 nheader nh ct hcache hnext hfetch hrew hge
    rw [nextStep_cached node s fuel header hcache]
    unfold nextStepCont
    simp only [hnext, hfetch, hrew, herr nheader.height hge]

/-- Concrete node reporting a height just outside the u32 range. -/
def bigHeightNode : Node where
  get_block_hash := fun h => if h = 0 then .ok 0 else .error ()
  get_block_header_info := fun x =>
    if x = 0 then .ok ⟨2 ^ 32, 0, 1, none, none⟩ else .error ()
  get_block_filter := fun _ => .error ()
  get_block := fun _ => .error ()
  match_any := fun _ _ _ => .ok false

/-- Witness for C8: the conversion failure and the base-finding conversion
site at the concrete out-of-range node. -/
theorem height_bounds_spec_witness :
    u32_try_into (2 ^ 32) = .error .tryFromInt ∧
    nextStep bigHeightNode (FilterIter.new ⟨⟨0, 0⟩, []⟩ []) 1 =
      .fail .tryFromInt ⟨[], ⟨⟨0, 0⟩, []⟩, none⟩ := by
  constructor
  · exact height_bounds_spec.1 (2 ^ 32) (le_refl _)
  · exact height_bounds_spec.2.1 bigHeightNode (FilterIter.new ⟨⟨0, 0⟩, []⟩ []) 1
      ⟨2 ^ 32, 0, 1, none, none⟩ rfl rfl (le_refl _)

/-- A successful base-finding header comes from `get_block_header_info` at
some checkpoint of the chain (the agreeing one). -/
theorem find_base_ok_mem (node : Node) :
    ∀ (l : List BlockId) (h : Header), find_base node l = .ok h →
      ∃ c ∈ l, node.get_block_header_info c.hash = .ok h := by
  intro l
  induction l with
  | nil => intro h hfb; exact absurd hfb (by simp [find_base])
  | cons c rest ih =>
    intro h hfb
    unfold find_base at hfb
    split at hfb
    · cases hfb
    · split at hfb
      · split at hfb
        · cases hfb
        · cases hfb
          rename_i x1 fetched hg hcond x2 hinfo
          exact ⟨c, by simp, hcond ▸ hinfo⟩
      · obtain ⟨c2, hc2, hh2⟩ := ih h hfb
        exact ⟨c2, by simp [hc2], hh2⟩

theorem dropWhile_ne_nil_of_mem {α : Type} (p : α → Bool) :
    ∀ (l : List α) (c : α), c ∈ l → p c = false → l.dropWhile p ≠ [] := by
  intro l
  induction l with
  | nil => intro c hc; exact absurd hc (by simp)
  | cons a l ih =>
    intro c hc hpc
    rw [List.dropWhile_cons]
    by_cases ha : p a = true
    · rw [if_pos ha]
      rcases List.mem_cons.mp hc with rfl | hc2
      · rw [hpc] at ha; cases ha
      · exact ih c hc2 hpc
    · rw [if_neg ha]
      simp

/-- Truncation cannot fail when some checkpoint of the chain has height at
most the bound. -/
theorem range_le_isSome_of_mem (cp : CheckPoint) (hmax : Nat) (c : BlockId)
    (hc : c ∈ cp.toList) (hle : c.height ≤ hmax) :
    ∃ cp1, cp.range_le hmax = some cp1 := by
  unfold CheckPoint.range_le
  cases hd : cp.toList.dropWhile (fun b => decide (hmax < b.height)) with
  | nil =>
    exact absurd hd
      (dropWhile_ne_nil_of_mem _ cp.toList c hc (decide_eq_false (by omega)))
  | cons b rest => exact ⟨⟨b, rest⟩, rfl⟩

/-- Concrete node that answers base-finding inconsistently: the hash at the
checkpoint height 5 agrees, but the header fetched for it reports height 2,
below every local checkpoint height. -/
def badHeightNode : Node where
  get_block_hash := fun h => if h = 5 then .ok 5 else .error ()
  get_block_header_info := fun x =>
    if x = 5 then .ok ⟨2, 5, 1, none, none⟩ else .error ()
  get_block_filter := fun _ => .error ()
  get_block := fun _ => .error ()
  match_any := fun _ _ _ => .ok false

/-- C9: the `.expect("we found a base")` in the base-finding branch never
panics when the node reports, for each checkpoint of the chain, a header
height equal to that checkpoint's height (the agreeing checkpoint itself then
survives the truncation); without that precondition a node reporting a height
below every local checkpoint height drives the call into the panic outcome
instead of a typed error. -/
theorem expect_base_safety :
    (∀ (node : Node) (s : FilterIter) (fuel : Nat),
      (∀ c ∈ s.cp.toList, ∀ h, node.get_block_header_info c.hash = .ok h →
        h.height = c.height) →
      nextStep node s fuel ≠ .panic) ∧
    nextStep badHeightNode (FilterIter.new ⟨⟨5, 5⟩, []⟩ []) 0 = .panic := by
  constructor
  · intro node s fuel hgood
    unfold nextStep
    cases hc : s.header with
    | some header => exact nextStepCont_ne_panic node _ s.cp header fuel
    | none =>
      cases hfb : find_base node s.cp.toList with
      | error e => simp
      | ok h =>
        obtain ⟨c, hcmem, hch⟩ := find_base_ok_mem node s.cp.toList h hfb
        have hh : h.height = c.height := hgood c hcmem h hch
        cases hu : u32_try_into h.height with
        | error e => simp [hu]
        | ok height =>
          obtain ⟨rfl, hlt⟩ := u32_try_into_inv _ _ hu
          obtain ⟨cp1, hcp1⟩ := range_le_isSome_of_mem s.cp h.height c hcmem (by omega)
          simp only [hu, hcp1]
          exact nextStepCont_ne_panic node _ cp1 h fuel
  · decide

/-- Witness for C9: the no-panic guarantee applied at the consistent
`witNode`. -/
theorem expect_base_safety_witness :
    nextStep witNode (FilterIter.new witCp []) 3 ≠ .panic := by
  refine expect_base_safety.1 witNode (FilterIter.new witCp []) 3 ?_
  intro c hc h hh
  simp only [FilterIter.new, witCp, CheckPoint.toList, List.mem_cons,
    List.mem_singleton] at hc
  rcases hc with rfl | rfl | hfalse
  · exact absurd hh (by simp [witNode])
  · simp only [witNode] at hh
    norm_num at hh
    rw [show h = ⟨0, 5, 6, none, some 11⟩ from hh.symm]
  · exact absurd hfalse (by simp)

/-- Header served by a static best chain of `n` blocks at heights `0..n-1`
whose block hash at height `i` is `i` itself. -/
def staticHeader (n i : Nat) : Header :=
  ⟨i, i, (n : Int) - (i : Int),
    if i = 0 then none else some (i - 1),
    if i + 1 < n then some (i + 1) else none⟩

/-- A static (never-rewinding) node over that chain: filter payloads are the
block hash and the filter of block `b` matches the tracked set iff
`matchf b`. -/
def staticNode (n : Nat) (matchf : Nat → Bool) : Node where
  get_block_hash := fun h => if h < n then .ok h else .error ()
  get_block_header_info := fun x =>
    if x < n then .ok (staticHeader n x) else .error ()
  get_block_filter := fun x => .ok x
  get_block := fun x => .ok x
  match_any := fun fb _ _ => .ok (matchf fb)

/-- Repeated calls to `next()`: collect up to `k` consecutive events and
return them together with the outcome of the following call. -/
def runIter (node : Node) (fuel : Nat) :
    FilterIter → Nat → List Event × StepOutcome
  | s, 0 => ([], nextStep node s fuel)
  | s, k + 1 =>
    match nextStep node s fuel with
    | .event e s1 =>
      let r := runIter node fuel s1 k
      (e :: r.1, r.2)
    | out => ([], out)

/-- One continuation step against the static node from the header at height
`i`: below the tip it emits an event at height `i + 1` (a `Block` exactly on a
filter match, a `Tip` exactly on an unmatched tip block) and caches the header
at `i + 1`; at the tip it ends the stream. -/
theorem staticNode_cont (n : Nat) (matchf : Nat → Bool) (s0 : FilterIter)
    (cp : CheckPoint) (i fuel : Nat) (hn : n ≤ 2 ^ 32) (_hi : i < n) :
    (i + 1 < n →
      ∃ e cp1,
        nextStepCont (staticNode n matchf) s0 cp (staticHeader n i) fuel =
          .event e ⟨s0.spks, cp1, some (staticHeader n (i + 1))⟩ ∧
        e.height = i + 1 ∧
        (e.is_tip = true ↔ (matchf (i + 1) = false ∧ i + 2 = n)) ∧
        (e.is_match = true ↔ matchf (i + 1) = true)) ∧
    (i + 1 = n →
      nextStepCont (staticNode n matchf) s0 cp (staticHeader n i) fuel =
        .eos s0) := by
  constructor
  · intro hi2
    have hnext : (staticHeader n i).next_block_hash = some (i + 1) := by
      simp [staticHeader, hi2]
    have hfetch : (staticNode n matchf).get_block_header_info (i + 1) =
        .ok (staticHeader n (i + 1)) := by
      simp [staticNode, hi2]
    have hconf : ¬(staticHeader n (i + 1)).confirmations < 0 := by
      simp only [staticHeader]
      omega
    have hrew : rewind (staticNode n matchf) (staticHeader n (i + 1)) 0 fuel =
        some (.ok (staticHeader n (i + 1), 0)) :=
      rewind_noop _ _ 0 fuel hconf
    have hu : u32_try_into (staticHeader n (i + 1)).height =
        .ok (i + 1) := by
      simpa [staticHeader] using u32_try_into_ok (i + 1) (by omega)
    have hhash : (staticHeader n (i + 1)).hash = i + 1 := rfl
    have hfb : (staticNode n matchf).get_block_filter (i + 1) = .ok (i + 1) := rfl
    have hm : (staticNode n matchf).match_any (i + 1) (i + 1) s0.spks =
        .ok (matchf (i + 1)) := rfl
    unfold nextStepCont
    simp only [hnext, hfetch, hrew, hu, hhash, hfb, hm, Nat.lt_irrefl, if_false]
    cases hmf : matchf (i + 1) with
    | true =>
      refine ⟨.Block (cp.insert ⟨i + 1, i + 1⟩) (i + 1),
        cp.insert ⟨i + 1, i + 1⟩, ?_, ?_, ?_, ?_⟩
      · simp [staticNode]
      · simp [Event.height, CheckPoint.height, CheckPoint.insert]
      · simp [Event.is_tip, hmf]
      · simp [Event.is_match]
    | false =>
      by_cases h3 : i + 2 < n
      · have hnn : (staticHeader n (i + 1)).next_block_hash = some (i + 2) := by
          simp [staticHeader, h3]
        refine ⟨.NoMatch ⟨i + 1, i + 1⟩, cp, ?_, ?_, ?_, ?_⟩
        · simp [hnn]
        · simp [Event.height]
        · simp [Event.is_tip, hmf]
          omega
        · simp [Event.is_match]
      · have htip : (staticHeader n (i + 1)).next_block_hash = none := by
          simp [staticHeader, h3]
        refine ⟨.Tip (cp.insert ⟨i + 1, i + 1⟩), cp.insert ⟨i + 1, i + 1⟩,
          ?_, ?_, ?_, ?_⟩
        · simp [htip]
        · simp [Event.height, CheckPoint.height, CheckPoint.insert]
        · simp [Event.is_tip, hmf]
          omega
        · simp [Event.is_match]
  · intro htop
    have hnext : (staticHeader n i).next_block_hash = none := by
      simp [staticHeader]
      omega
    unfold nextStepCont
    simp only [hnext]

/-- Collecting events from a cached position `i` against the static node:
heights are exactly `i+1, …, n-1` and the run ends with end-of-stream. -/
theorem staticNode_run (n : Nat) (matchf : Nat → Bool) (fuel : Nat)
    (hn : n ≤ 2 ^ 32) :
    ∀ (k : Nat) (spks : List Spk) (cp : CheckPoint) (i : Nat),
      i < n → n - 1 - i ≤ k →
      (runIter (staticNode n matchf) fuel
          ⟨spks, cp, some (staticHeader n i)⟩ k).1.map Event.height =
        List.range' (i + 1) (n - 1 - i) ∧
      (∃ s1, (runIter (staticNode n matchf) fuel
          ⟨spks, cp, some (staticHeader n i)⟩ k).2 = .eos s1) ∧
      (∀ e ∈ (runIter (staticNode n matchf) fuel
          ⟨spks, cp, some (staticHeader n i)⟩ k).1,
        (e.is_tip = true ↔ (matchf e.height = false ∧ e.height + 1 = n)) ∧
        (e.is_match = true ↔ matchf e.height = true)) := by
  intro k
  induction k with
  | zero =>
    intro spks cp i hi hk
    have htop : i + 1 = n := by omega
    have heos := (staticNode_cont n matchf ⟨spks, cp, none⟩ cp i fuel hn hi).2 htop
    have hstep : nextStep (staticNode n matchf)
        ⟨spks, cp, some (staticHeader n i)⟩ fuel = .eos ⟨spks, cp, none⟩ := by
      rw [nextStep_cached _ _ _ _ rfl]
      exact heos
    unfold runIter
    rw [hstep]
    refine ⟨by simp [show n - 1 - i = 0 by omega], ⟨⟨spks, cp, none⟩, rfl⟩, by simp⟩
  | succ k ih =>
    intro spks cp i hi hk
    by_cases hi2 : i + 1 < n
    · obtain ⟨e, cp1, hstep, hht, htipc, hmatchc⟩ :=
        (staticNode_cont n matchf ⟨spks, cp, none⟩ cp i fuel hn hi).1 hi2
      have hstep2 : nextStep (staticNode n matchf)
          ⟨spks, cp, some (staticHeader n i)⟩ fuel =
          .event e ⟨spks, cp1, some (staticHeader n (i + 1))⟩ := by
        rw [nextStep_cached _ _ _ _ rfl]
        exact hstep
      obtain ⟨hmap, heos, hkinds⟩ := ih spks cp1 (i + 1) hi2 (by omega)
      unfold runIter
      rw [hstep2]
      refine ⟨?_, heos, ?_⟩
      · simp only [List.map_cons, hmap, hht]
        rw [show n - 1 - i = (n - 1 - (i + 1)) + 1 by omega, List.range'_succ]
      · intro e2 he2
        rcases List.mem_cons.mp he2 with rfl | he2
        · rw [hht]
          exact ⟨htipc, hmatchc⟩
        · exact hkinds e2 he2
    · have htop : i + 1 = n := by omega
      have heos := (staticNode_cont n matchf ⟨spks, cp, none⟩ cp i fuel hn hi).2 htop
      have hstep : nextStep (staticNode n matchf)
          ⟨spks, cp, some (staticHeader n i)⟩ fuel = .eos ⟨spks, cp, none⟩ := by
        rw [nextStep_cached _ _ _ _ rfl]
        exact heos
      unfold runIter
      rw [hstep]
      refine ⟨by simp [show n - 1 - i = 0 by omega], ⟨⟨spks, cp, none⟩, rfl⟩, by simp⟩

/-- The first call of a fresh engine whose checkpoint tip `(b, b)` agrees with
the static node resolves its base to the header at `b` and continues like a
cached call. -/
theorem staticNode_base (n : Nat) (matchf : Nat → Bool) (spks : List Spk)
    (b : Nat) (tail : List BlockId) (fuel : Nat) (hb : b < n)
    (hn : n ≤ 2 ^ 32) :
    nextStep (staticNode n matchf) ⟨spks, ⟨⟨b, b⟩, tail⟩, none⟩ fuel =
      nextStep (staticNode n matchf)
        ⟨spks, ⟨⟨b, b⟩, tail⟩, some (staticHeader n b)⟩ fuel := by
  have hfb : find_base (staticNode n matchf)
      (⟨⟨b, b⟩, tail⟩ : CheckPoint).toList = .ok (staticHeader n b) := by
    unfold CheckPoint.toList find_base
    simp [staticNode, hb]
  have hu : u32_try_into (staticHeader n b).height = .ok b := by
    simpa [staticHeader] using u32_try_into_ok b (by omega)
  have hrange : (⟨⟨b, b⟩, tail⟩ : CheckPoint).range_le b =
      some ⟨⟨b, b⟩, tail⟩ := by
    unfold CheckPoint.range_le CheckPoint.toList
    simp
  rw [nextStep_cached (staticNode n matchf)
    ⟨spks, ⟨⟨b, b⟩, tail⟩, some (staticHeader n b)⟩ fuel (staticHeader n b) rfl]
  unfold nextStep
  simp only [hfb, hu, hrange]

theorem runIter_congr (node : Node) (fuel : Nat) (s s2 : FilterIter) (k : Nat)
    (h : nextStep node s fuel = nextStep node s2 fuel) :
    runIter node fuel s k = runIter node fuel s2 k := by
  cases k with
  | zero => unfold runIter; rw [h]
  | succ k => unfold runIter; rw [h]

/-- C4 amended: against an unchanged (never-rewinding) static node, repeated
stepping from a checkpoint tip `(b, b)` yields events whose heights form the
strictly increasing contiguous sequence `b+1, …, n-1` up to the node's tip,
followed by end-of-stream; an event is a `Tip` exactly when it is the
unmatched tip block (a matched tip yields a `Block` event at the tip height),
and an event is a match exactly when its block's filter matches. -/
theorem monotonic_progress_spec (n b k fuel : Nat) (matchf : Nat → Bool)
    (spks : List Spk) (tail : List BlockId)
    (hb : b < n) (hn : n ≤ 2 ^ 32) (hk : n - 1 - b ≤ k) :
    (runIter (staticNode n matchf) fuel
        ⟨spks, ⟨⟨b, b⟩, tail⟩, none⟩ k).1.map Event.height =
      List.range' (b + 1) (n - 1 - b) ∧
    (∃ s1, (runIter (staticNode n matchf) fuel
        ⟨spks, ⟨⟨b, b⟩, tail⟩, none⟩ k).2 = .eos s1) ∧
    (∀ e ∈ (runIter (staticNode n matchf) fuel
        ⟨spks, ⟨⟨b, b⟩, tail⟩, none⟩ k).1,
      (e.is_tip = true ↔ (matchf e.height = false ∧ e.height + 1 = n)) ∧
      (e.is_match = true ↔ matchf e.height = true)) := by
  rw [runIter_congr (staticNode n matchf) fuel _ _ k
    (staticNode_base n matchf spks b tail fuel hb hn)]
  exact staticNode_run n matchf fuel hn k spks ⟨⟨b, b⟩, tail⟩ b hb hk

/-- Witness for C4's amended theorem at a concrete three-block chain whose
middle block matches. -/
theorem monotonic_progress_spec_witness :
    (runIter (staticNode 3 (fun x => decide (x = 1))) 1
        ⟨[], ⟨⟨0, 0⟩, []⟩, none⟩ 2).1.map Event.height = List.range' 1 2 ∧
    (∃ s1, (runIter (staticNode 3 (fun x => decide (x = 1))) 1
        ⟨[], ⟨⟨0, 0⟩, []⟩, none⟩ 2).2 = .eos s1) ∧
    (∀ e ∈ (runIter (staticNode 3 (fun x => decide (x = 1))) 1
        ⟨[], ⟨⟨0, 0⟩, []⟩, none⟩ 2).1,
      (e.is_tip = true ↔
        ((fun x => decide (x = 1)) e.height = false ∧ e.height + 1 = 3)) ∧
      (e.is_match = true ↔ (fun x => decide (x = 1)) e.height = true)) :=
  monotonic_progress_spec 3 0 2 1 (fun x => decide (x = 1)) [] []
    (by decide) (by norm_num) (by decide)

/-- Hash scheme of the pre-reorg chain: heights up to 5 keep their plain
hash, heights 6 and above use hashes 106 and above. -/
def oldHash (i : Nat) : Nat := if i ≤ 5 then i else 100 + i

/-- Node A: a 13-block best chain at heights 0..12 with hashes `oldHash`;
no filter matches. -/
def nodeA : Node where
  get_block_hash := fun h => if h ≤ 12 then .ok (oldHash h) else .error ()
  get_block_header_info := fun x =>
    if x ≤ 5 then
      .ok ⟨x, x, (13 : Int) - (x : Int),
        if x = 0 then none else some (x - 1), some (oldHash (x + 1))⟩
    else if 106 ≤ x ∧ x ≤ 112 then
      .ok ⟨x - 100, x, (113 : Int) - (x : Int),
        if x = 106 then some 5 else some (x - 1),
        if x = 112 then none else some (x + 1)⟩
    else .error ()
  get_block_filter := fun x => .ok x
  get_block := fun _ => .error ()
  match_any := fun _ _ _ => .ok false

/-- Node B: the same node after a reorg that keeps heights 0..5 and replaces
everything above (new tip at height 8); the old blocks with hashes 106..112
are off the best chain (negative confirmations). -/
def nodeB : Node where
  get_block_hash := fun _ => .error ()
  get_block_header_info := fun x =>
    if x ≤ 5 then
      .ok ⟨x, x, (9 : Int) - (x : Int),
        if x = 0 then none else some (x - 1),
        if x = 5 then some 206 else some (x + 1)⟩
    else if 106 ≤ x ∧ x ≤ 112 then
      .ok ⟨x - 100, x, -1,
        if x = 106 then some 5 else some (x - 1), none⟩
    else .error ()
  get_block_filter := fun x => .ok x
  get_block := fun _ => .error ()
  match_any := fun _ _ _ => .ok false

/-- C4 counterexample: (i) on a never-rewinding two-block chain whose tip
block matches, the run ends in a `Block` event at the tip height, not a `Tip`
event; (ii) when the node reorganizes onto a shorter chain between calls, the
emitted height decreases (11 on node A, then 5 on node B), so event heights
are not non-decreasing. -/
theorem event_sequence_counterexample :
    ((runIter (staticNode 2 (fun _ => true)) 1
        ⟨[], ⟨⟨0, 0⟩, []⟩, none⟩ 1).1.map Event.height = [1] ∧
     (runIter (staticNode 2 (fun _ => true)) 1
        ⟨[], ⟨⟨0, 0⟩, []⟩, none⟩ 1).1.map Event.is_tip = [false] ∧
     (runIter (staticNode 2 (fun _ => true)) 1
        ⟨[], ⟨⟨0, 0⟩, []⟩, none⟩ 1).2 = .eos ⟨[], ⟨⟨1, 1⟩, [⟨0, 0⟩]⟩, none⟩) ∧
    ((runIter nodeA 1 ⟨[], ⟨⟨0, 0⟩, []⟩, none⟩ 10).1.map Event.height =
        [1, 2, 3, 4, 5, 6, 7, 8, 9, 10] ∧
     (runIter nodeA 1 ⟨[], ⟨⟨0, 0⟩, []⟩, none⟩ 10).2 =
       .event (.NoMatch ⟨11, 111⟩)
         ⟨[], ⟨⟨0, 0⟩, []⟩, some ⟨11, 111, 2, some 110, some 112⟩⟩ ∧
     nextStep nodeB
         ⟨[], ⟨⟨0, 0⟩, []⟩, some ⟨11, 111, 2, some 110, some 112⟩⟩ 10 =
       .event (.NoMatch ⟨5, 5⟩)
         ⟨[], ⟨⟨0, 0⟩, []⟩, some ⟨5, 5, 4, some 4, some 206⟩⟩) :=
  ⟨⟨by decide, by decide, by decide⟩, ⟨by decide, by decide, by decide⟩⟩

/-- C7: a step whose working header has no recorded next hash returns
end-of-stream with no mutation of the stored checkpoint and with the cached
header cleared (any end-of-stream outcome has that exact post-state), and the
condition is soft: after the engine reaches the tip of a `b+1`-block chain,
stepping against the same chain extended by one block emits an event for the
new block at height `b + 1`. -/
theorem soft_eos_spec :
    (∀ (node : Node) (s : FilterIter) (fuel : Nat) (header : Header),
      s.header = some header → header.next_block_hash = none →
      nextStep node s fuel = .eos ⟨s.spks, s.cp, none⟩) ∧
    (∀ (node : Node) (s : FilterIter) (fuel : Nat) (s1 : FilterIter),
      nextStep node s fuel = .eos s1 → s1 = ⟨s.spks, s.cp, none⟩) ∧
    (∀ (b : Nat) (matchf : Nat → Bool) (spks : List Spk) (tail : List BlockId)
        (fuel : Nat), b + 2 ≤ 2 ^ 32 →
      nextStep (staticNode (b + 1) matchf)
          ⟨spks, ⟨⟨b, b⟩, tail⟩, some (staticHeader (b + 1) b)⟩ fuel =
        .eos ⟨spks, ⟨⟨b, b⟩, tail⟩, none⟩ ∧
      ∃ e s1, nextStep (staticNode (b + 2) matchf)
          ⟨spks, ⟨⟨b, b⟩, tail⟩, none⟩ fuel = .event e s1 ∧
        e.height = b + 1) := by
  refine ⟨?_, nextStep_eos_state, ?_⟩
  · intro node s fuel header hc hnone
    rw [nextStep_cached node s fuel header hc]
    unfold nextStepCont
    simp only [hnone]
  · intro b matchf spks tail fuel hb2
    constructor
    · rw [nextStep_cached _ _ _ _ rfl]
      exact (staticNode_cont (b + 1) matchf ⟨spks, ⟨⟨b, b⟩, tail⟩, none⟩
        ⟨⟨b, b⟩, tail⟩ b fuel (by omega) (by omega)).2 rfl
    · obtain ⟨e, cp1, hstep, hht, htip2, hm2⟩ :=
        (staticNode_cont (b + 2) matchf ⟨spks, ⟨⟨b, b⟩, tail⟩, none⟩
          ⟨⟨b, b⟩, tail⟩ b fuel (by omega) (by omega)).1 (by omega)
      refine ⟨e, ⟨spks, cp1, some (staticHeader (b + 2) (b + 1))⟩, ?_, hht⟩
      rw [staticNode_base (b + 2) matchf spks b tail fuel (by omega) (by omega),
        nextStep_cached _ _ _ _ rfl]
      exact hstep

/-- Witness for C7: the three parts at concrete inputs — a cached tip header
with no next hash ends the stream without mutating the checkpoint, and after
extending the one-block chain by one block the next step emits an event at
height 1. -/
theorem soft_eos_spec_witness :
    nextStep rpcDownNode ⟨[], ⟨⟨3, 3⟩, []⟩, some ⟨3, 3, 1, some 2, none⟩⟩ 1 =
      .eos ⟨[], ⟨⟨3, 3⟩, []⟩, none⟩ ∧
    (nextStep (staticNode 1 (fun _ => false))
        ⟨[], ⟨⟨0, 0⟩, []⟩, some (staticHeader 1 0)⟩ 1 =
      .eos ⟨[], ⟨⟨0, 0⟩, []⟩, none⟩ ∧
    ∃ e s1, nextStep (staticNode 2 (fun _ => false))
        ⟨[], ⟨⟨0, 0⟩, []⟩, none⟩ 1 = .event e s1 ∧ e.height = 1) := by
  constructor
  · exact soft_eos_spec.1 rpcDownNode
      ⟨[], ⟨⟨3, 3⟩, []⟩, some ⟨3, 3, 1, some 2, none⟩⟩ 1
      ⟨3, 3, 1, some 2, none⟩ rfl rfl
  · exact soft_eos_spec.2.2 0 (fun _ => false) [] [] 1 (by norm_num)

end Bip158
